import Mathlib

/-!
# Raven goal architecture: Goal_Wander, composite goals, evaluators, arbitration

A shallow embedding of the goal classes under
`Buckland_Chapter7 to 10_Raven/Goals`.  Objects are records, member functions
are functions that take the object together with the bot it points at
(`m_pOwner`, `pBot`) and return the updated pair.  A `double` that the code
computes with is an IEEE-754 binary64 value (`Double`), multiplied with
round-to-nearest, ties to even.
-/

set_option maxRecDepth 10000

namespace Raven

/-! ## Data model -/

/-- Status tags of a goal (`m_iStatus`).  The enumeration lives in
`Goals/Goal.h`, which is not among the sources; the four tags are the ones the
sources and the specification name. -/
inductive Status where
  | inactive
  | active
  | completed
  | failed
deriving DecidableEq, Repr

/-- Type tags of a goal (`m_iType`).  `goal_wander` and `goal_attack_target`
are the two tags the sources use; every other tag of `Raven_Goal_Types.h`
(not among the sources) is `other n`. -/
inductive GoalType where
  | goal_wander
  | goal_attack_target
  | other (n : Nat)
deriving DecidableEq, Repr

/-! ### The C++ type `double` -/

/-- An IEEE-754 binary64 value, the C++ `double`.  `finite neg m e` is the
number `(-1)^neg * m * 2^e`, kept in canonical form (`Double.canonical`), so
that two finite values are the same double exactly when they are the same
term; zero is `finite neg 0 (-1074)`, with its sign.  The payload and sign of
a NaN are not distinguished. -/
inductive Double where
  | finite (neg : Bool) (m : Nat) (e : Int)
  | inf (neg : Bool)
  | nan
deriving DecidableEq, Repr

/-- The canonical form of a binary64 value: a significand of at most 53 bits,
an exponent between `-1074` and `971`, and a full 53-bit significand unless
the exponent is the least one (zero and the subnormal numbers). -/
def Double.canonical : Double → Prop
  | Double.finite _ m e => m < 2 ^ 53 ∧ -1074 ≤ e ∧ e ≤ 971 ∧ (e = -1074 ∨ 2 ^ 52 ≤ m)
  | Double.inf _ => True
  | Double.nan => True

/-- The number of binary digits of `n`, by halving; `fuel` bounds the number
of halvings. -/
def Double.bitLengthAux : Nat → Nat → Nat
  | 0, _ => 0
  | fuel + 1, n => if n = 0 then 0 else Double.bitLengthAux fuel (n / 2) + 1

/-- The number of binary digits of `n` (`0` for `0`).  The fuel `n` is always
enough (`bitLength_spec`). -/
def Double.bitLength (n : Nat) : Nat := Double.bitLengthAux n n

/-- The integer nearest to `M / 2^s`, a tie going to the even neighbour. -/
def Double.roundHalfEven (M s : Nat) : Nat :=
  let q := M / 2 ^ s
  let r := M % 2 ^ s
  if 2 * r < 2 ^ s then q
  else if 2 * r = 2 ^ s then (if q % 2 = 0 then q else q + 1)
  else q + 1

/-- The binary64 value nearest to `(-1)^neg * M * 2^E`, ties to even (the
default IEEE-754 rounding).  The exponent `e` is the one that leaves 53
significant bits, but not below `-1074` (gradual underflow); the significand
is `M * 2^(E - e)`, rounded when `E < e`; a significand that rounds up to
`2^53` moves to the next exponent; a result beyond the largest exponent is an
infinity. -/
def Double.round (neg : Bool) (M : Nat) (E : Int) : Double :=
  if M = 0 then Double.finite neg 0 (-1074)
  else
    let e : Int := max (E + (Double.bitLength M : Int) - 53) (-1074)
    let q : Nat :=
      if e ≤ E then M * 2 ^ (E - e).toNat else Double.roundHalfEven M (e - E).toNat
    let m : Nat := if q = 2 ^ 53 then 2 ^ 52 else q
    let e1 : Int := if q = 2 ^ 53 then e + 1 else e
    if 971 < e1 then Double.inf neg else Double.finite neg m e1

/-- The product of two `double`s, the C++ `*` on `double`: NaN if an operand is
NaN or the operands are an infinity and a zero; otherwise the sign is the
exclusive or of the signs, an infinite operand gives an infinity, and two
finite operands give their exact product rounded to the nearest double. -/
def Double.mul : Double → Double → Double
  | Double.nan, _ => Double.nan
  | _, Double.nan => Double.nan
  | Double.inf s, Double.inf t => Double.inf (xor s t)
  | Double.inf s, Double.finite t m _ => if m = 0 then Double.nan else Double.inf (xor s t)
  | Double.finite s m _, Double.inf t => if m = 0 then Double.nan else Double.inf (xor s t)
  | Double.finite s m1 e1, Double.finite t m2 e2 =>
    Double.round (xor s t) (m1 * m2) (e1 + e2)

/-- The rational number a finite `double` stands for; none for an infinity or
a NaN. -/
def Double.toRational : Double → Option ℚ
  | Double.finite neg m e => some ((if neg then -1 else 1) * (m : ℚ) * (2 : ℚ) ^ e)
  | Double.inf _ => none
  | Double.nan => none

/-- The literal `0.05`: the double nearest to `1/20`, which is
`7205759403792794 * 2^-57` (`lit_0_05_nearest`). -/
def Double.lit_0_05 : Double := Double.finite false 7205759403792794 (-57)

/-- The double `0.0`. -/
def Double.lit_0 : Double := Double.finite false 0 (-1074)

/-- The double `1.0`, which is `2^52 * 2^-52`. -/
def Double.lit_1 : Double := Double.finite false 4503599627370496 (-52)

/-- The double `3.0`, which is `3 * 2^51 * 2^-51`. -/
def Double.lit_3 : Double := Double.finite false 6755399441055744 (-51)

/-- A point of the plane (`Vector2D`): two `double` coordinates. -/
structure Vector2D where
  x : Double
  y : Double
deriving DecidableEq

/-- One edge of a planned path (`PathEdge`): the two waypoints it joins. -/
structure PathEdge where
  m_vSource : Vector2D
  m_vDestination : Vector2D
deriving DecidableEq

/-- Modelled from the spec: the steering component of a bot
(`Raven_SteeringBehaviors.h` is not among the sources).  The specification
describes it as a set of behaviours switched by enable/disable commands
(`SteerWanderOn/Off`); `wander` is the wander switch and `others` stands for
every other steering setting. -/
structure Raven_Steering where
  wander : Bool
  others : Nat
deriving DecidableEq, Repr

/-- Modelled from the spec: `Raven_Steering::WanderOn`, the "enable wander"
command (body not among the sources): the wander switch is on afterwards and
nothing else is touched. -/
def Raven_Steering.WanderOn (s : Raven_Steering) : Raven_Steering :=
  { s with wander := true }

/-- Modelled from the spec: `Raven_Steering::WanderOff`, the "disable wander"
command (body not among the sources): the wander switch is off afterwards and
nothing else is touched. -/
def Raven_Steering.WanderOff (s : Raven_Steering) : Raven_Steering :=
  { s with wander := false }

/-- The base class `Goal<Raven_Bot>`: a type tag and a status.  The owner
pointer `m_pOwner` is not stored; every member function receives the owner it
points at as an argument and returns it updated. -/
structure Goal where
  m_iType : GoalType
  m_iStatus : Status
deriving DecidableEq, Repr

/-- The class `Goal_Composite<Raven_Bot>`: a goal with an ordered list of
sub-goals, front first.  Sub-goals are seen through their `Goal` base. -/
structure Goal_Composite extends Goal where
  m_SubGoals : List Goal
deriving DecidableEq

/-- The class `Goal_Think`, the brain of a bot, as far as `Goal_Think.h`
declares its state; the evaluators `m_Evaluators` are passed to `Arbitrate`
separately. -/
structure Goal_Think extends Goal_Composite
deriving DecidableEq

/-- The bot, as far as the goal sources reach into it: `GetSteering()` and
`GetBrain()`. -/
structure Raven_Bot where
  m_pSteering : Raven_Steering
  m_pBrain : Goal_Think
deriving DecidableEq

/-- The class `Goal_Wander` (`Goal_Wander.h`): a primitive goal, no members of
its own. -/
structure Goal_Wander extends Goal
deriving DecidableEq

/-- The class `Goal_FollowPath` (`Goal_FollowPath.h`): a composite goal with a
local copy of the path. -/
structure Goal_FollowPath extends Goal_Composite where
  m_Path : List PathEdge
deriving DecidableEq

/-- The class `Goal_AttackTarget` (`Goal_AttackTarget.h`): a composite goal,
no members of its own. -/
structure Goal_AttackTarget extends Goal_Composite
deriving DecidableEq

/-! ## Goal_Wander (`Goal_FindTarget.cpp`) -/

/-- Modelled from the spec: the base constructor `Goal<Raven_Bot>(pBot, type)`
(`Goals/Goal.h` is not among the sources) records the type tag and starts the
status at `inactive`, the initial state of the goal state machine. -/
def Goal.mk_inactive (type : GoalType) : Goal :=
  { m_iType := type, m_iStatus := Status.inactive }

/-- The constructor `Goal_Wander(Raven_Bot *pBot)`. -/
def Goal_Wander.new : Goal_Wander :=
  { toGoal := Goal.mk_inactive GoalType.goal_wander }

/-- The member function `Goal_Wander::Activate`:
`m_pOwner->GetSteering()->WanderOn();`. -/
def Goal_Wander.Activate (g : Goal_Wander) (m_pOwner : Raven_Bot) :
    Goal_Wander × Raven_Bot :=
  (g, { m_pOwner with m_pSteering := m_pOwner.m_pSteering.WanderOn })

/-- The member function `Goal_Wander::Process`: when the status is `inactive`
it calls `Activate()` and sets `m_iStatus = active`; then it
returns `m_iStatus`.  The result is the returned status together with the
goal and its owner after the call. -/
def Goal_Wander.Process (g : Goal_Wander) (m_pOwner : Raven_Bot) :
    Status × Goal_Wander × Raven_Bot :=
  if g.m_iStatus = Status.inactive then
    let r := Goal_Wander.Activate g m_pOwner
    let g1 : Goal_Wander := { r.1 with m_iStatus := Status.active }
    (g1.m_iStatus, g1, r.2)
  else
    (g.m_iStatus, g, m_pOwner)

/-- The member function `Goal_Wander::Terminate`:
`m_pOwner->GetSteering()->WanderOff();` and
`m_iStatus = completed;`. -/
def Goal_Wander.Terminate (g : Goal_Wander) (m_pOwner : Raven_Bot) :
    Goal_Wander × Raven_Bot :=
  let o1 : Raven_Bot := { m_pOwner with m_pSteering := m_pOwner.m_pSteering.WanderOff }
  ({ g with m_iStatus := Status.completed }, o1)

/-- The member functions of `Goal_Wander` that can be called on an existing
goal. -/
inductive WanderOp where
  | Activate
  | Process
  | Terminate
deriving DecidableEq, Repr

/-- One call of a member function of `Goal_Wander`, return value dropped. -/
def Goal_Wander.call (op : WanderOp) (g : Goal_Wander) (m_pOwner : Raven_Bot) :
    Goal_Wander × Raven_Bot :=
  match op with
  | WanderOp.Activate => Goal_Wander.Activate g m_pOwner
  | WanderOp.Process => (Goal_Wander.Process g m_pOwner).2
  | WanderOp.Terminate => Goal_Wander.Terminate g m_pOwner

/-- The statuses returned by `n` consecutive calls of `Goal_Wander::Process`,
oldest first, with the goal and owner after the last call. -/
def Goal_Wander.ProcessN : Nat → Goal_Wander → Raven_Bot →
    List Status × Goal_Wander × Raven_Bot
  | 0, g, o => ([], g, o)
  | n + 1, g, o =>
    let r := Goal_Wander.Process g o
    let rest := Goal_Wander.ProcessN n r.2.1 r.2.2
    (r.1 :: rest.1, rest.2)

/-! ## Composite goals (`Goal_FollowPath.h`, `Goal_AttackTarget.h`) -/

/-- The member function `Goal_FollowPath::Terminate`: the body is empty
(`void Terminate() {}`). -/
def Goal_FollowPath.Terminate (g : Goal_FollowPath) (m_pOwner : Raven_Bot) :
    Goal_FollowPath × Raven_Bot :=
  (g, m_pOwner)

/-- The member function `Goal_AttackTarget::Terminate`:
`m_iStatus = completed;`. -/
def Goal_AttackTarget.Terminate (g : Goal_AttackTarget) (m_pOwner : Raven_Bot) :
    Goal_AttackTarget × Raven_Bot :=
  ({ g with m_iStatus := Status.completed }, m_pOwner)

/-! ## Goal_Think helpers and evaluators (`Goal_Think.h`, `ExploreGoal_Evaluator.cpp`) -/

/-- The goal-injection member functions that `Goal_Think.h` declares, with
their arguments. -/
inductive ThinkCall where
  | AddGoal_MoveToPosition (pos : Vector2D)
  | AddGoal_GetItem (ItemType : Nat)
  | AddGoal_Explore
  | AddGoal_AttackTarget
  | QueueGoal_MoveToPosition (pos : Vector2D)
deriving DecidableEq

/-- The bodies of the goal-injection member functions of `Goal_Think`.
`Goal_Think.h` only declares them, so they are a parameter of the embedding:
what a call on the brain of a bot does to that bot (to its brain and, through
the brain's owner pointer, to the rest of it). -/
abbrev ThinkBodies : Type := ThinkCall → Raven_Bot → Raven_Bot

/-- A bot together with the record of the `Goal_Think` member functions that
have been called on its brain, oldest first. -/
structure BotRun where
  bot : Raven_Bot
  calls : List ThinkCall

/-- A call `pBot->GetBrain()->f(...)`: the body of `f` runs on the bot and the
call is recorded. -/
def Goal_Think.invoke (bodies : ThinkBodies) (c : ThinkCall) (r : BotRun) : BotRun :=
  { bot := bodies c r.bot, calls := r.calls ++ [c] }

/-- The class `ExploreGoal_Evaluator`: the bias `m_dCharacterBias`, a
`double`, that it inherits from `Goal_Evaluator`. -/
structure ExploreGoal_Evaluator where
  m_dCharacterBias : Double
deriving DecidableEq

/-- The member function `ExploreGoal_Evaluator::CalculateDesirability`:
`double Desirability = 0.05; Desirability *= m_dCharacterBias;
return Desirability;`.  The bot is passed by non-const pointer, so the bot
after the call is part of the result. -/
def ExploreGoal_Evaluator.CalculateDesirability (ev : ExploreGoal_Evaluator)
    (pBot : Raven_Bot) : Double × Raven_Bot :=
  let Desirability : Double := Double.lit_0_05
  let Desirability : Double := Double.mul Desirability ev.m_dCharacterBias
  (Desirability, pBot)

/-- The member function `ExploreGoal_Evaluator::SetGoal`:
`pBot->GetBrain()->AddGoal_Explore();`. -/
def ExploreGoal_Evaluator.SetGoal (bodies : ThinkBodies) (_ev : ExploreGoal_Evaluator)
    (pBot : BotRun) : BotRun :=
  Goal_Think.invoke bodies ThinkCall.AddGoal_Explore pBot

/-- Modelled from the spec: the interface `Goal_Evaluator` (`Goal_Evaluator.h`
is not among the sources).  `CalculateDesirability(agent) -> score` is a pure
function of the agent state giving the biased score, and `SetGoal(agent)`
installs the evaluator's goal on the agent's Think layer.  A score is the
rational number that a finite `double` stands for (`Double.toRational`); the
arbitration loop only compares scores. -/
structure Goal_Evaluator where
  CalculateDesirability : Raven_Bot → ℚ
  SetGoal : BotRun → BotRun

/-- An evaluator whose score does not depend on the bot and whose `SetGoal`
makes the given call on the brain. -/
def Goal_Evaluator.const (bodies : ThinkBodies) (score : ℚ) (c : ThinkCall) :
    Goal_Evaluator :=
  { CalculateDesirability := fun _ => score
    SetGoal := Goal_Think.invoke bodies c }

/-- Modelled from the spec: the selection loop of `Goal_Think::Arbitrate`
(`Goal_Think.cpp` is not among the sources).  It walks the scores in list
order and keeps the index and score of the best one seen so far, replacing it
only by a strictly greater score, so that the first-seen wins on exact ties.
`best` is the best so far, `i` the index of the head of the remaining list. -/
def Goal_Think.scan : Option (Nat × ℚ) → Nat → List ℚ → Option (Nat × ℚ)
  | best, _, [] => best
  | none, i, s :: rest => Goal_Think.scan (some (i, s)) (i + 1) rest
  | some (b, bs), i, s :: rest =>
    if bs < s then Goal_Think.scan (some (i, s)) (i + 1) rest
    else Goal_Think.scan (some (b, bs)) (i + 1) rest

/-- Modelled from the spec: the index of the evaluator that
`Goal_Think::Arbitrate` selects for a list of biased scores, if there is
one. -/
def Goal_Think.mostDesirable (scores : List ℚ) : Option Nat :=
  (Goal_Think.scan none 0 scores).map Prod.fst

/-- Modelled from the spec: `Goal_Think::Arbitrate` (`Goal_Think.cpp` is not
among the sources): "evaluates every evaluator against the current agent
state, selects the evaluator with the strictly greatest biased score
(first-seen wins on exact ties), and calls that evaluator's `SetGoal`".  The
result is the list of indices of the evaluators whose `SetGoal` was called,
with the owner after the call. -/
def Goal_Think.Arbitrate (m_Evaluators : List Goal_Evaluator) (m_pOwner : BotRun) :
    List Nat × BotRun :=
  let scores := m_Evaluators.map (fun ev => ev.CalculateDesirability m_pOwner.bot)
  match Goal_Think.mostDesirable scores with
  | none => ([], m_pOwner)
  | some i =>
    match m_Evaluators[i]? with
    | none => ([], m_pOwner)
    | some ev => ([i], ev.SetGoal m_pOwner)

/-! ## Sample objects -/

/-- A steering component with wander on and no other behaviour. -/
def sampleSteeringOn : Raven_Steering := { wander := true, others := 0 }

/-- A steering component with wander off and no other behaviour. -/
def sampleSteeringOff : Raven_Steering := { wander := false, others := 0 }

/-- A brain with no sub-goals. -/
def sampleBrain : Goal_Think :=
  { m_iType := GoalType.other 0, m_iStatus := Status.inactive, m_SubGoals := [] }

/-- A bot that is already wandering. -/
def sampleBotOn : Raven_Bot := { m_pSteering := sampleSteeringOn, m_pBrain := sampleBrain }

/-- A bot that is not wandering. -/
def sampleBotOff : Raven_Bot := { m_pSteering := sampleSteeringOff, m_pBrain := sampleBrain }

/-- A path-following goal that was never activated: status `inactive`, no
sub-goals yet, a path of one edge. -/
def sampleFollowPath : Goal_FollowPath :=
  { m_iType := GoalType.other 4, m_iStatus := Status.inactive, m_SubGoals := []
    m_Path :=
      [{ m_vSource := { x := Double.lit_0, y := Double.lit_0 }
         m_vDestination := { x := Double.lit_1, y := Double.lit_0 } }] }

/-- An attack goal in progress: status `active`, one active sub-goal. -/
def sampleAttack : Goal_AttackTarget :=
  { m_iType := GoalType.goal_attack_target, m_iStatus := Status.active
    m_SubGoals := [{ m_iType := GoalType.other 1, m_iStatus := Status.active }] }

/-- Helper bodies that leave the bot alone. -/
def sampleBodies : ThinkBodies := fun _ b => b

/-- An explore evaluator with bias `1.0`. -/
def sampleExplore : ExploreGoal_Evaluator := { m_dCharacterBias := Double.lit_1 }

/-- Three evaluators: one with the score and the `SetGoal` of the explore
evaluator with bias `1.0` (`sample_explore_score`), and two constant ones tied
at `1`. -/
def sampleEvaluators : List Goal_Evaluator :=
  [ { CalculateDesirability := fun _ => 3602879701896397 / 72057594037927936
      SetGoal := ExploreGoal_Evaluator.SetGoal sampleBodies sampleExplore },
    Goal_Evaluator.const sampleBodies 1 ThinkCall.AddGoal_AttackTarget,
    Goal_Evaluator.const sampleBodies 1 (ThinkCall.AddGoal_GetItem 0) ]

/-! ## Theorems: Goal_Wander -/

/-- C1: `Goal_Wander::Process`, for every status and every owner.  If the
status is `inactive` on entry, the call returns `active`, the goal is the same
goal with status `active`, and the owner is the owner after `Activate`, with
wander steering on and everything else as before.  If the status is anything
else, the call returns that status and leaves goal and owner as they were. -/
theorem wander_process_contract (g : Goal_Wander) (m_pOwner : Raven_Bot) :
    (g.m_iStatus = Status.inactive →
      Goal_Wander.Process g m_pOwner =
          (Status.active, { g with m_iStatus := Status.active },
            (Goal_Wander.Activate g m_pOwner).2) ∧
        (Goal_Wander.Process g m_pOwner).2.2.m_pSteering.wander = true ∧
        (Goal_Wander.Process g m_pOwner).2.2.m_pSteering.others =
          m_pOwner.m_pSteering.others ∧
        (Goal_Wander.Process g m_pOwner).2.2.m_pBrain = m_pOwner.m_pBrain) ∧
    (g.m_iStatus ≠ Status.inactive →
      Goal_Wander.Process g m_pOwner = (g.m_iStatus, g, m_pOwner)) := by
  constructor
  · intro h
    simp [Goal_Wander.Process, Goal_Wander.Activate, Raven_Steering.WanderOn, h]
  · intro h
    simp [Goal_Wander.Process, h]

/-- C1 at a fresh goal on a bot that is not wandering, and at a completed goal
on a bot that is wandering. -/
theorem wander_process_contract_witness :
    Goal_Wander.Process Goal_Wander.new sampleBotOff =
        (Status.active, { Goal_Wander.new with m_iStatus := Status.active },
          (Goal_Wander.Activate Goal_Wander.new sampleBotOff).2) ∧
      Goal_Wander.Process { Goal_Wander.new with m_iStatus := Status.completed } sampleBotOn =
        (Status.completed, { Goal_Wander.new with m_iStatus := Status.completed },
          sampleBotOn) :=
  ⟨((wander_process_contract Goal_Wander.new sampleBotOff).1 rfl).1,
    (wander_process_contract { Goal_Wander.new with m_iStatus := Status.completed }
      sampleBotOn).2 (by decide)⟩

/-- C2: `Goal_Wander::Terminate` is a total function and, from every prior
status and every owner, leaves the status `completed` and the owner's wander
steering off; this holds in particular for a freshly constructed goal. -/
theorem wander_terminate_contract (g : Goal_Wander) (m_pOwner : Raven_Bot) :
    (Goal_Wander.Terminate g m_pOwner).1.m_iStatus = Status.completed ∧
      (Goal_Wander.Terminate g m_pOwner).2.m_pSteering.wander = false ∧
      (Goal_Wander.Terminate Goal_Wander.new m_pOwner).1.m_iStatus = Status.completed ∧
      (Goal_Wander.Terminate Goal_Wander.new m_pOwner).2.m_pSteering.wander = false := by
  simp [Goal_Wander.Terminate, Raven_Steering.WanderOff]

/-- C3, refuted as stated: a freshly constructed `Goal_Wander` (status
`inactive`, never activated) whose owner is already wandering.  `Terminate`
switches the owner's wander steering off, so the steering is not what it was
before the call. -/
theorem wander_terminate_fresh_changes_steering :
    Goal_Wander.new.m_iStatus = Status.inactive ∧
      sampleBotOn.m_pSteering.wander = true ∧
      (Goal_Wander.Terminate Goal_Wander.new sampleBotOn).2.m_pSteering.wander = false ∧
      (Goal_Wander.Terminate Goal_Wander.new sampleBotOn).2.m_pSteering ≠
        sampleBotOn.m_pSteering := by
  decide

/-- C3, amended: `Terminate` on a `Goal_Wander` with status `inactive` leaves
every steering setting other than the wander switch, and the brain, as they
were, and leaves the wander switch off; the owner is exactly as before if and
only if its wander switch was off before the call. -/
theorem wander_terminate_frame (g : Goal_Wander) (m_pOwner : Raven_Bot)
    (_h : g.m_iStatus = Status.inactive) :
    (Goal_Wander.Terminate g m_pOwner).2.m_pSteering.others = m_pOwner.m_pSteering.others ∧
      (Goal_Wander.Terminate g m_pOwner).2.m_pBrain = m_pOwner.m_pBrain ∧
      (Goal_Wander.Terminate g m_pOwner).2.m_pSteering.wander = false ∧
      ((Goal_Wander.Terminate g m_pOwner).2 = m_pOwner ↔
        m_pOwner.m_pSteering.wander = false) := by
  obtain ⟨⟨w, k⟩, b⟩ := m_pOwner
  cases w <;> simp [Goal_Wander.Terminate, Raven_Steering.WanderOff]

/-- C3, amended, at a fresh goal on a bot that is not wandering: the owner is
exactly as before. -/
theorem wander_terminate_frame_witness :
    Goal_Wander.new.m_iStatus = Status.inactive ∧
      (Goal_Wander.Terminate Goal_Wander.new sampleBotOff).2 = sampleBotOff :=
  ⟨rfl, (wander_terminate_frame Goal_Wander.new sampleBotOff rfl).2.2.2.2 rfl⟩

/-- The status of a `Goal_Wander` after `Process` is `active` whenever it was
`inactive` or `active` before, and `active` is what the call returns. -/
lemma wander_process_stays_active (g : Goal_Wander) (o : Raven_Bot)
    (h : g.m_iStatus = Status.inactive ∨ g.m_iStatus = Status.active) :
    (Goal_Wander.Process g o).1 = Status.active ∧
      (Goal_Wander.Process g o).2.1.m_iStatus = Status.active := by
  rcases h with h | h <;> simp [Goal_Wander.Process, h]

/-- Every one of `n` consecutive `Process` calls on a `Goal_Wander` that is
`inactive` or `active` returns `active`, and the goal is `active` or untouched
afterwards. -/
lemma wander_processN_all_active (n : Nat) :
    ∀ (g : Goal_Wander) (o : Raven_Bot),
      g.m_iStatus = Status.inactive ∨ g.m_iStatus = Status.active →
      (Goal_Wander.ProcessN n g o).1 = List.replicate n Status.active ∧
        (1 ≤ n → (Goal_Wander.ProcessN n g o).2.1.m_iStatus = Status.active) := by
  induction n with
  | zero => intro g o _; simp [Goal_Wander.ProcessN]
  | succ k ih =>
    intro g o h
    obtain ⟨hret, hst⟩ := wander_process_stays_active g o h
    obtain ⟨hl, hs⟩ := ih (Goal_Wander.Process g o).2.1 (Goal_Wander.Process g o).2.2
      (Or.inr hst)
    refine ⟨?_, fun _ => ?_⟩
    · simp [Goal_Wander.ProcessN, hret, hl, List.replicate_succ]
    · cases k with
      | zero => simpa [Goal_Wander.ProcessN] using hst
      | succ m => simpa [Goal_Wander.ProcessN] using hs (Nat.succ_le_succ (Nat.zero_le m))

/-- C9: `Goal_Wander` has no natural end.  From status `inactive` or `active`,
every one of `n ≥ 1` consecutive `Process` calls returns `active` (the list of
returned statuses is `n` copies of `active`) and the status is `active`
afterwards; a member function that leaves the status `completed` found it
`completed` or is `Terminate`; and a member function that leaves the status
`failed` found it `failed`. -/
theorem wander_no_natural_end :
    (∀ (n : Nat) (g : Goal_Wander) (o : Raven_Bot),
        g.m_iStatus = Status.inactive ∨ g.m_iStatus = Status.active → 1 ≤ n →
        (Goal_Wander.ProcessN n g o).1 = List.replicate n Status.active ∧
          (∀ s ∈ (Goal_Wander.ProcessN n g o).1,
            s ≠ Status.completed ∧ s ≠ Status.failed) ∧
          (Goal_Wander.ProcessN n g o).2.1.m_iStatus = Status.active) ∧
      (∀ (op : WanderOp) (g : Goal_Wander) (o : Raven_Bot),
        (Goal_Wander.call op g o).1.m_iStatus = Status.completed →
        g.m_iStatus = Status.completed ∨ op = WanderOp.Terminate) ∧
      (∀ (op : WanderOp) (g : Goal_Wander) (o : Raven_Bot),
        (Goal_Wander.call op g o).1.m_iStatus = Status.failed →
        g.m_iStatus = Status.failed) ∧
      (∀ (g : Goal_Wander) (o : Raven_Bot),
        (Goal_Wander.Process g o).1 = Status.failed → g.m_iStatus = Status.failed) := by
  refine ⟨?_, ?_, ?_, ?_⟩
  · intro n g o h hn
    obtain ⟨hl, hs⟩ := wander_processN_all_active n g o h
    refine ⟨hl, ?_, hs hn⟩
    intro s hsmem
    rw [hl] at hsmem
    have := List.eq_of_mem_replicate hsmem
    subst this
    exact ⟨by decide, by decide⟩
  · intro op g o h
    cases op with
    | Activate => left; simpa [Goal_Wander.call, Goal_Wander.Activate] using h
    | Process =>
      left
      by_cases hi : g.m_iStatus = Status.inactive
      · simp [Goal_Wander.call, Goal_Wander.Process, hi] at h
      · simpa [Goal_Wander.call, Goal_Wander.Process, hi] using h
    | Terminate => right; rfl
  · intro op g o h
    cases op with
    | Activate => simpa [Goal_Wander.call, Goal_Wander.Activate] using h
    | Process =>
      by_cases hi : g.m_iStatus = Status.inactive
      · simp [Goal_Wander.call, Goal_Wander.Process, hi] at h
      · simpa [Goal_Wander.call, Goal_Wander.Process, hi] using h
    | Terminate => simp [Goal_Wander.call, Goal_Wander.Terminate] at h
  · intro g o h
    by_cases hi : g.m_iStatus = Status.inactive
    · simp [Goal_Wander.Process, hi] at h
    · simpa [Goal_Wander.Process, hi] using h

/-- C9 at three consecutive `Process` calls on a fresh goal: all three return
`active`. -/
theorem wander_no_natural_end_witness :
    (Goal_Wander.ProcessN 3 Goal_Wander.new sampleBotOff).1 =
      [Status.active, Status.active, Status.active] :=
  (wander_no_natural_end.1 3 Goal_Wander.new sampleBotOff (Or.inl rfl) (by decide)).1

/-- C10: activation of `Goal_Wander` is idempotent.  In the state reached by
`Process` from an `inactive` goal the status is `active` and wander steering is
on; a further `Activate` leaves goal and owner as they are, and a further
`Process` returns the same status and leaves goal and owner as they are, so
`Process` applied twice gives the state and result of `Process` applied once. -/
theorem wander_activation_idempotent (g : Goal_Wander) (m_pOwner : Raven_Bot)
    (h : g.m_iStatus = Status.inactive) :
    (Goal_Wander.Process g m_pOwner).2.1.m_iStatus = Status.active ∧
      (Goal_Wander.Process g m_pOwner).2.2.m_pSteering.wander = true ∧
      Goal_Wander.Activate (Goal_Wander.Process g m_pOwner).2.1
          (Goal_Wander.Process g m_pOwner).2.2 =
        (Goal_Wander.Process g m_pOwner).2 ∧
      Goal_Wander.Process (Goal_Wander.Process g m_pOwner).2.1
          (Goal_Wander.Process g m_pOwner).2.2 =
        Goal_Wander.Process g m_pOwner := by
  simp [Goal_Wander.Process, Goal_Wander.Activate, Raven_Steering.WanderOn, h]

/-- C10 at a fresh goal on a bot that is not wandering. -/
theorem wander_activation_idempotent_witness :
    Goal_Wander.new.m_iStatus = Status.inactive ∧
      Goal_Wander.Process (Goal_Wander.Process Goal_Wander.new sampleBotOff).2.1
          (Goal_Wander.Process Goal_Wander.new sampleBotOff).2.2 =
        Goal_Wander.Process Goal_Wander.new sampleBotOff :=
  ⟨rfl, (wander_activation_idempotent Goal_Wander.new sampleBotOff rfl).2.2.2⟩

/-! ## Theorems: composite goals -/

/-- C4, refuted as stated: a `Goal_FollowPath` with status `inactive` still
has status `inactive`, not `completed`, after `Terminate`. -/
theorem followpath_terminate_not_completed :
    sampleFollowPath.m_iStatus = Status.inactive ∧
      (Goal_FollowPath.Terminate sampleFollowPath sampleBotOff).1.m_iStatus =
        Status.inactive ∧
      (Goal_FollowPath.Terminate sampleFollowPath sampleBotOff).1.m_iStatus ≠
        Status.completed := by
  decide

/-- C4, amended: `Goal_FollowPath::Terminate` changes nothing.  For every
`Goal_FollowPath`, every prior status and every owner, the goal (status,
sub-goals and path) and the owner after `Terminate` are what they were before,
so the status afterwards is `completed` exactly when it already was. -/
theorem followpath_terminate_noop (g : Goal_FollowPath) (m_pOwner : Raven_Bot) :
    Goal_FollowPath.Terminate g m_pOwner = (g, m_pOwner) ∧
      (Goal_FollowPath.Terminate g m_pOwner).1.m_iStatus = g.m_iStatus ∧
      ((Goal_FollowPath.Terminate g m_pOwner).1.m_iStatus = Status.completed ↔
        g.m_iStatus = Status.completed) := by
  simp [Goal_FollowPath.Terminate]

/-- C5, refuted as stated: a `Goal_AttackTarget` with status `active` and a
non-empty sub-goal list has status `completed` after `Terminate`, so its own
status was changed while a child remained. -/
theorem attacktarget_terminate_changes_status :
    sampleAttack.m_SubGoals ≠ [] ∧
      sampleAttack.m_iStatus = Status.active ∧
      (Goal_AttackTarget.Terminate sampleAttack sampleBotOff).1.m_iStatus =
        Status.completed ∧
      (Goal_AttackTarget.Terminate sampleAttack sampleBotOff).1.m_SubGoals =
        sampleAttack.m_SubGoals ∧
      (Goal_AttackTarget.Terminate sampleAttack sampleBotOff).1.m_iStatus ≠
        sampleAttack.m_iStatus := by
  decide

/-- C5, amended: `Goal_AttackTarget::Terminate` sets the composite's own
status to `completed` whether or not sub-goals remain, and leaves the sub-goal
list, the type tag and the owner as they were; the status after `Terminate`
equals the status before exactly when that was already `completed`. -/
theorem attacktarget_terminate_completes (g : Goal_AttackTarget) (m_pOwner : Raven_Bot) :
    (Goal_AttackTarget.Terminate g m_pOwner).1.m_iStatus = Status.completed ∧
      (Goal_AttackTarget.Terminate g m_pOwner).1.m_SubGoals = g.m_SubGoals ∧
      (Goal_AttackTarget.Terminate g m_pOwner).1.m_iType = g.m_iType ∧
      (Goal_AttackTarget.Terminate g m_pOwner).2 = m_pOwner ∧
      ((Goal_AttackTarget.Terminate g m_pOwner).1.m_iStatus = g.m_iStatus ↔
        g.m_iStatus = Status.completed) := by
  simp [Goal_AttackTarget.Terminate, eq_comm]

/-! ## Theorems: evaluators and arbitration -/

/-- The fuel of `bitLength` is enough: `bitLengthAux fuel n` is the number of
binary digits of `n` whenever `n ≤ fuel`. -/
lemma bitLengthAux_spec (fuel : Nat) :
    ∀ n, n ≤ fuel →
      n < 2 ^ Double.bitLengthAux fuel n ∧
        (n ≠ 0 → 2 ^ (Double.bitLengthAux fuel n - 1) ≤ n) := by
  induction fuel with
  | zero =>
    intro n hn
    have h0 : n = 0 := Nat.le_zero.1 hn
    subst h0
    simp [Double.bitLengthAux]
  | succ k ih =>
    intro n hn
    by_cases h0 : n = 0
    · subst h0
      simp [Double.bitLengthAux]
    · have hhalf : n / 2 ≤ k := by omega
      obtain ⟨hup, hlow⟩ := ih (n / 2) hhalf
      have hstep : Double.bitLengthAux (k + 1) n = Double.bitLengthAux k (n / 2) + 1 := by
        simp [Double.bitLengthAux, h0]
      rw [hstep]
      refine ⟨?_, fun _ => ?_⟩
      · rw [pow_succ]
        omega
      · simp only [Nat.add_sub_cancel]
        by_cases h1 : n / 2 = 0
        · have hk : Double.bitLengthAux k (n / 2) = 0 := by
            rw [h1]
            cases k <;> simp [Double.bitLengthAux]
          rw [hk]
          simp
          omega
        · have hl := hlow h1
          have hpos : 1 ≤ Double.bitLengthAux k (n / 2) := by
            by_contra hcon
            have hz : Double.bitLengthAux k (n / 2) = 0 := by omega
            rw [hz] at hup
            simp at hup
            exact h1 hup
          obtain ⟨t, ht⟩ : ∃ t, Double.bitLengthAux k (n / 2) = t + 1 :=
            ⟨Double.bitLengthAux k (n / 2) - 1, by omega⟩
          rw [ht] at hl ⊢
          simp only [Nat.add_sub_cancel] at hl
          rw [pow_succ]
          omega

/-- The number computed by `bitLength` is the number of binary digits: `n` is
below `2 ^ bitLength n`, and a non-zero `n` is at least
`2 ^ (bitLength n - 1)`. -/
lemma bitLength_spec (n : Nat) :
    n < 2 ^ Double.bitLength n ∧ (n ≠ 0 → 2 ^ (Double.bitLength n - 1) ≤ n) :=
  bitLengthAux_spec n n (le_refl n)

/-- The result of `roundHalfEven M s` is within half a unit of `M / 2^s`:
twice the distance between `roundHalfEven M s * 2^s` and `M` is at most
`2^s`. -/
lemma roundHalfEven_nearest (M s : Nat) :
    2 * M ≤ 2 * (Double.roundHalfEven M s * 2 ^ s) + 2 ^ s ∧
      2 * (Double.roundHalfEven M s * 2 ^ s) ≤ 2 * M + 2 ^ s := by
  have hdm : 2 ^ s * (M / 2 ^ s) + M % 2 ^ s = M := Nat.div_add_mod M (2 ^ s)
  have hr : M % 2 ^ s < 2 ^ s := Nat.mod_lt _ (by positivity)
  unfold Double.roundHalfEven
  simp only []
  generalize 2 ^ s = p at *
  generalize M / p = q at *
  generalize M % p = r at *
  have hmul : p * q = q * p := Nat.mul_comm p q
  have hsucc : (q + 1) * p = q * p + p := by ring
  split_ifs <;> constructor <;> omega

/-- On an exact tie, `M` half-way between two multiples of `2^s`,
`roundHalfEven M s` is the even one of the two neighbours. -/
lemma roundHalfEven_tie (M s : Nat) (h : 2 * (M % 2 ^ s) = 2 ^ s) :
    Double.roundHalfEven M s % 2 = 0 := by
  unfold Double.roundHalfEven
  simp only [h, lt_self_iff_false, if_false, if_true]
  split_ifs <;> omega

/-- The result of `roundHalfEven M s` is `M / 2^s` rounded down or up. -/
lemma roundHalfEven_bounds (M s : Nat) :
    M / 2 ^ s ≤ Double.roundHalfEven M s ∧ Double.roundHalfEven M s ≤ M / 2 ^ s + 1 := by
  unfold Double.roundHalfEven
  simp only []
  split_ifs <;> constructor <;> omega

/-- The significand that `round` computes for a non-zero `M` has at most 53
bits, counting `2^53` itself, and has a full 53 bits unless the exponent is
the least one. -/
lemma round_significand (M : Nat) (E : Int) (hM : M ≠ 0) :
    (if max (E + (Double.bitLength M : Int) - 53) (-1074) ≤ E then
        M * 2 ^ (E - max (E + (Double.bitLength M : Int) - 53) (-1074)).toNat
      else
        Double.roundHalfEven M
          (max (E + (Double.bitLength M : Int) - 53) (-1074) - E).toNat) ≤ 2 ^ 53 ∧
      (max (E + (Double.bitLength M : Int) - 53) (-1074) ≠ -1074 →
        2 ^ 52 ≤
          (if max (E + (Double.bitLength M : Int) - 53) (-1074) ≤ E then
            M * 2 ^ (E - max (E + (Double.bitLength M : Int) - 53) (-1074)).toNat
          else
            Double.roundHalfEven M
              (max (E + (Double.bitLength M : Int) - 53) (-1074) - E).toNat)) := by
  obtain ⟨hup, hlow⟩ := bitLength_spec M
  have hlow := hlow hM
  have hL : 1 ≤ Double.bitLength M := by
    by_contra hcon
    have hz : Double.bitLength M = 0 := by omega
    rw [hz] at hup
    simp at hup
    exact hM hup
  generalize Double.bitLength M = L at *
  generalize he : max (E + (L : Int) - 53) (-1074) = e
  have he1 : E + (L : Int) - 53 ≤ e := by rw [← he]; exact le_max_left _ _
  have he2 : (-1074 : Int) ≤ e := by rw [← he]; exact le_max_right _ _
  have he3 : e ≠ -1074 → e = E + (L : Int) - 53 := by
    intro hne
    rcases max_choice (E + (L : Int) - 53) (-1074) with h | h
    · rw [← he, h]
    · exact absurd (he.symm.trans h) hne
  by_cases hcase : e ≤ E
  · simp only [hcase, if_true]
    obtain ⟨d, hd⟩ : ∃ d : Nat, (E - e).toNat = d := ⟨_, rfl⟩
    rw [hd]
    have hdle : L + d ≤ 53 := by omega
    constructor
    · have h1 : M * 2 ^ d < 2 ^ L * 2 ^ d := Nat.mul_lt_mul_of_pos_right hup (by positivity)
      have h2 : 2 ^ L * 2 ^ d ≤ 2 ^ 53 := by
        rw [← pow_add]
        exact Nat.pow_le_pow_right (by decide) hdle
      omega
    · intro hne
      have hde : L - 1 + d = 52 := by
        have := he3 hne
        omega
      have h1 : 2 ^ (L - 1) * 2 ^ d ≤ M * 2 ^ d := Nat.mul_le_mul_right _ hlow
      have h2 : 2 ^ (L - 1) * 2 ^ d = 2 ^ 52 := by
        rw [← pow_add, hde]
      omega
  · simp only [hcase, if_false]
    obtain ⟨t, ht⟩ : ∃ t : Nat, (e - E).toNat = t := ⟨_, rfl⟩
    rw [ht]
    obtain ⟨hb1, hb2⟩ := roundHalfEven_bounds M t
    have htL : L ≤ 53 + t := by omega
    constructor
    · have h1 : M < 2 ^ 53 * 2 ^ t := by
        have : 2 ^ L ≤ 2 ^ (53 + t) := Nat.pow_le_pow_right (by decide) htL
        rw [pow_add] at this
        omega
      have h2 : M / 2 ^ t < 2 ^ 53 := (Nat.div_lt_iff_lt_mul (by positivity)).2 h1
      omega
    · intro hne
      have hte : L - 1 = 52 + t := by
        have := he3 hne
        omega
      have h1 : 2 ^ 52 * 2 ^ t ≤ M := by
        rw [← pow_add, ← hte]
        exact hlow
      have h2 : 2 ^ 52 ≤ M / 2 ^ t := (Nat.le_div_iff_mul_le (by positivity)).2 h1
      omega

/-- Every value that `round` returns is a double in canonical form. -/
lemma round_canonical (neg : Bool) (M : Nat) (E : Int) :
    Double.canonical (Double.round neg M E) := by
  unfold Double.round
  by_cases hM : M = 0
  · simp [hM, Double.canonical]
  · simp only [hM, if_false]
    obtain ⟨hq1, hq2⟩ := round_significand M E hM
    have he2 : (-1074 : Int) ≤ max (E + (Double.bitLength M : Int) - 53) (-1074) :=
      le_max_right _ _
    generalize max (E + (Double.bitLength M : Int) - 53) (-1074) = e at *
    generalize (if e ≤ E then M * 2 ^ (E - e).toNat
      else Double.roundHalfEven M (e - E).toNat) = q at *
    by_cases hq : q = 2 ^ 53
    · simp only [hq, if_true]
      split_ifs with hov
      · trivial
      · simp only [Double.canonical]
        refine ⟨by norm_num, by omega, by omega, Or.inr (le_refl _)⟩
    · simp only [hq, if_false]
      split_ifs with hov
      · trivial
      · simp only [Double.canonical]
        refine ⟨by omega, he2, by omega, ?_⟩
        by_cases hmin : e = -1074
        · exact Or.inl hmin
        · exact Or.inr (hq2 hmin)

/-- Every product of doubles is a double in canonical form. -/
lemma mul_canonical (a b : Double) : Double.canonical (Double.mul a b) := by
  cases a <;> cases b <;> simp only [Double.mul] <;>
    first
      | exact round_canonical _ _ _
      | trivial
      | (split_ifs <;> trivial)

/-- The literal `0.05` is the double nearest to `1/20`: its value
`3602879701896397 / 2^56` is not `1/20`, and it is less than half a unit in
the last place (`2^-58`) away from it. -/
lemma lit_0_05_nearest :
    Double.toRational Double.lit_0_05 = some (3602879701896397 / 72057594037927936) ∧
      (3602879701896397 / 72057594037927936 : ℚ) ≠ 1 / 20 ∧
      |(3602879701896397 / 72057594037927936 : ℚ) - 1 / 20| < 1 / 2 ^ 58 ∧
      Double.canonical Double.lit_0_05 := by
  refine ⟨?_, ?_, ?_, ?_⟩
  · simp only [Double.toRational, Double.lit_0_05]
    norm_num
  · norm_num
  · rw [abs_lt]
    constructor <;> norm_num
  · simp only [Double.canonical, Double.lit_0_05]
    norm_num

/-- The products of the literal `0.05` with some doubles: with `2^-1074`, the
least positive double, it is `0`; with the largest finite double it is
`0x1.9999999999999p+1019`; with `-0.0` it is `-0.0`; with an infinity it is
that infinity; with a NaN it is a NaN. -/
lemma mul_lit_0_05_values :
    Double.mul Double.lit_0_05 (Double.finite false 1 (-1074)) =
        Double.finite false 0 (-1074) ∧
      Double.mul Double.lit_0_05 (Double.finite false 9007199254740991 971) =
        Double.finite false 7205759403792793 967 ∧
      Double.mul Double.lit_0_05 (Double.finite true 0 (-1074)) =
        Double.finite true 0 (-1074) ∧
      Double.mul Double.lit_0_05 (Double.inf true) = Double.inf true ∧
      Double.mul Double.lit_0_05 Double.nan = Double.nan := by
  refine ⟨?_, ?_, ?_, ?_, ?_⟩ <;> rfl

/-- C6, refuted as stated: with bias `3.0` the call returns the double
`5404319552844596 * 2^-55` (`0x1.3333333333334p-3`).  That number is neither
`0.05 * 3 = 3/20` computed exactly, nor the exact product of the double
`0.05` (`3602879701896397 / 2^56`) and `3`. -/
theorem explore_desirability_not_exact :
    (ExploreGoal_Evaluator.CalculateDesirability { m_dCharacterBias := Double.lit_3 }
        sampleBotOff).1 = Double.finite false 5404319552844596 (-55) ∧
      Double.toRational (ExploreGoal_Evaluator.CalculateDesirability
        { m_dCharacterBias := Double.lit_3 } sampleBotOff).1 =
        some (5404319552844596 / 36028797018963968) ∧
      (5404319552844596 / 36028797018963968 : ℚ) ≠ 1 / 20 * 3 ∧
      (5404319552844596 / 36028797018963968 : ℚ) ≠
        3602879701896397 / 72057594037927936 * 3 := by
  have hval : (ExploreGoal_Evaluator.CalculateDesirability
      { m_dCharacterBias := Double.lit_3 } sampleBotOff).1 =
      Double.finite false 5404319552844596 (-55) := by rfl
  refine ⟨hval, ?_, ?_, ?_⟩
  · rw [hval]
    simp only [Double.toRational]
    norm_num
  · norm_num
  · norm_num

/-- C6, amended: `ExploreGoal_Evaluator::CalculateDesirability` is a pure
constant baseline.  For every bias and every bot it returns the `double`
product of the literal `0.05` and the bias, rounded to the nearest double, and
the bot it was given, unchanged; the score is the same for every bot, so a
second call on the unchanged bot returns the identical score; with bias `1.0`
the score is the double `0.05`, that is `3602879701896397 / 2^56`, which lies
between `0` and `1`. -/
theorem explore_desirability_constant (ev : ExploreGoal_Evaluator) (pBot : Raven_Bot) :
    ExploreGoal_Evaluator.CalculateDesirability ev pBot =
        (Double.mul Double.lit_0_05 ev.m_dCharacterBias, pBot) ∧
      (ExploreGoal_Evaluator.CalculateDesirability ev
          (ExploreGoal_Evaluator.CalculateDesirability ev pBot).2).1 =
        (ExploreGoal_Evaluator.CalculateDesirability ev pBot).1 ∧
      (∀ other : Raven_Bot,
        (ExploreGoal_Evaluator.CalculateDesirability ev other).1 =
          (ExploreGoal_Evaluator.CalculateDesirability ev pBot).1) ∧
      (ExploreGoal_Evaluator.CalculateDesirability { m_dCharacterBias := Double.lit_1 }
        pBot).1 = Double.lit_0_05 ∧
      Double.toRational (ExploreGoal_Evaluator.CalculateDesirability
        { m_dCharacterBias := Double.lit_1 } pBot).1 =
        some (3602879701896397 / 72057594037927936) ∧
      (0 : ℚ) ≤ 3602879701896397 / 72057594037927936 ∧
      (3602879701896397 / 72057594037927936 : ℚ) ≤ 1 := by
  have hone : (ExploreGoal_Evaluator.CalculateDesirability
      { m_dCharacterBias := Double.lit_1 } pBot).1 = Double.lit_0_05 := by rfl
  refine ⟨rfl, rfl, fun _ => rfl, hone, ?_, by norm_num, by norm_num⟩
  rw [hone]
  exact lit_0_05_nearest.1

/-- The score of the first sample evaluator is the one that the explore
evaluator with bias `1.0` computes. -/
lemma sample_explore_score (pBot : Raven_Bot) :
    Double.toRational (ExploreGoal_Evaluator.CalculateDesirability sampleExplore pBot).1 =
      some (3602879701896397 / 72057594037927936) := by
  have hone : (ExploreGoal_Evaluator.CalculateDesirability sampleExplore pBot).1 =
      Double.lit_0_05 := by rfl
  rw [hone]
  exact lit_0_05_nearest.1

/-- C7: `ExploreGoal_Evaluator::SetGoal` on a bot makes exactly one call on
that bot's brain, `AddGoal_Explore`: whatever the bodies of the helpers are
and whatever was called before, the record of calls grows by the single entry
`AddGoal_Explore`, and the bot afterwards is precisely the bot that the body
of `AddGoal_Explore` yields from the bot given. -/
theorem explore_setgoal_single_call (bodies : ThinkBodies) (ev : ExploreGoal_Evaluator)
    (pBot : Raven_Bot) (before : List ThinkCall) :
    (ExploreGoal_Evaluator.SetGoal bodies ev { bot := pBot, calls := before }).calls =
        before ++ [ThinkCall.AddGoal_Explore] ∧
      (ExploreGoal_Evaluator.SetGoal bodies ev { bot := pBot, calls := [] }).calls =
        [ThinkCall.AddGoal_Explore] ∧
      (ExploreGoal_Evaluator.SetGoal bodies ev { bot := pBot, calls := before }).bot =
        bodies ThinkCall.AddGoal_Explore pBot := by
  simp [ExploreGoal_Evaluator.SetGoal, Goal_Think.invoke]

/-- The selection loop, started with a best-so-far: it ends with a best whose
score bounds the initial best and every remaining score, and that best is
either the initial one or the first remaining entry that reaches the final
score, which is then strictly above the initial best. -/
lemma scan_from_best (l : List ℚ) :
    ∀ (b : Nat) (bs : ℚ) (i : Nat),
      ∃ r rs, Goal_Think.scan (some (b, bs)) i l = some (r, rs) ∧ bs ≤ rs ∧
        (∀ s ∈ l, s ≤ rs) ∧
        ((r = b ∧ rs = bs) ∨
          ∃ k, k < l.length ∧ r = i + k ∧ l[k]? = some rs ∧ bs < rs ∧
            ∀ j, j < k → ∀ s, l[j]? = some s → s < rs) := by
  induction l with
  | nil =>
    intro b bs i
    exact ⟨b, bs, by simp [Goal_Think.scan], le_refl _, by simp, Or.inl ⟨rfl, rfl⟩⟩
  | cons s rest ih =>
    intro b bs i
    by_cases hlt : bs < s
    · obtain ⟨r, rs, hscan, hle, hall, hcase⟩ := ih i s (i + 1)
      refine ⟨r, rs, by simp [Goal_Think.scan, hlt, hscan], le_trans hlt.le hle, ?_, ?_⟩
      · intro t ht
        rcases List.mem_cons.1 ht with h | h
        · exact h ▸ hle
        · exact hall t h
      · right
        rcases hcase with ⟨hr, hrs⟩ | ⟨k, hk, hr, hget, hs, hfirst⟩
        · exact ⟨0, by simp, by simp [hr], by simp [hrs], by rw [hrs]; exact hlt,
            fun j hj => absurd hj (Nat.not_lt_zero j)⟩
        · refine ⟨k + 1, by simp [hk], by omega, by simpa using hget,
            lt_trans hlt hs, ?_⟩
          intro j hj t ht
          cases j with
          | zero =>
            have : s = t := by simpa using ht
            exact this ▸ hs
          | succ m => exact hfirst m (by omega) t (by simpa using ht)
    · obtain ⟨r, rs, hscan, hle, hall, hcase⟩ := ih b bs (i + 1)
      have hsle : s ≤ bs := not_lt.1 hlt
      refine ⟨r, rs, by simp [Goal_Think.scan, hlt, hscan], hle, ?_, ?_⟩
      · intro t ht
        rcases List.mem_cons.1 ht with h | h
        · exact h ▸ le_trans hsle hle
        · exact hall t h
      · rcases hcase with hsame | ⟨k, hk, hr, hget, hs, hfirst⟩
        · exact Or.inl hsame
        · right
          refine ⟨k + 1, by simp [hk], by omega, by simpa using hget, hs, ?_⟩
          intro j hj t ht
          cases j with
          | zero =>
            have : s = t := by simpa using ht
            exact this ▸ lt_of_le_of_lt hsle hs
          | succ m => exact hfirst m (by omega) t (by simpa using ht)

/-- The index selected for a non-empty list of scores is the first position
that holds the maximum score. -/
lemma mostDesirable_first_max (sc : List ℚ) (h : sc ≠ []) :
    ∃ i v, Goal_Think.mostDesirable sc = some i ∧ sc[i]? = some v ∧
      (∀ s ∈ sc, s ≤ v) ∧ ∀ j, j < i → ∀ s, sc[j]? = some s → s < v := by
  cases sc with
  | nil => exact absurd rfl h
  | cons s rest =>
    obtain ⟨r, rs, hscan, hle, hall, hcase⟩ := scan_from_best rest 0 s 1
    refine ⟨r, rs, by simp [Goal_Think.mostDesirable, Goal_Think.scan, hscan], ?_, ?_, ?_⟩
    · rcases hcase with ⟨hr, hrs⟩ | ⟨k, _, hr, hget, _, _⟩
      · simp [hr, hrs]
      · have : r = k + 1 := by omega
        simpa [this] using hget
    · intro t ht
      rcases List.mem_cons.1 ht with h1 | h1
      · exact h1 ▸ hle
      · exact hall t h1
    · intro j hj t ht
      rcases hcase with ⟨hr, _⟩ | ⟨k, _, hr, _, hs, hfirst⟩
      · omega
      · cases j with
        | zero =>
          have : s = t := by simpa using ht
          exact this ▸ hs
        | succ m => exact hfirst m (by omega) t (by simpa using ht)

/-- The evaluators whose `SetGoal` is called by `Arbitrate` are determined by
the scores and the number of evaluators alone. -/
lemma arbitrate_called (evs : List Goal_Evaluator) (o : BotRun) :
    (Goal_Think.Arbitrate evs o).1 =
      match Goal_Think.mostDesirable
          (evs.map (fun ev => ev.CalculateDesirability o.bot)) with
      | none => []
      | some i => if i < evs.length then [i] else [] := by
  unfold Goal_Think.Arbitrate
  simp only
  cases hm : Goal_Think.mostDesirable
      (evs.map (fun ev => ev.CalculateDesirability o.bot)) with
  | none => simp
  | some i =>
    by_cases hi : i < evs.length
    · simp [hi, List.getElem?_eq_getElem hi]
    · simp [hi, List.getElem?_eq_none (not_lt.1 hi)]

/-- C8: `Goal_Think::Arbitrate` on a non-empty list of evaluators calls
`SetGoal` on exactly one evaluator, with the owner it was given.  That
evaluator has the maximum biased desirability of the list, and every evaluator
before it in list order scores strictly less, so it is the first one that
holds the maximum (first-seen wins on exact ties).  Any run of `Arbitrate`
over evaluators that give the same list of scores calls `SetGoal` on the
evaluator at the same position. -/
theorem arbitrate_selects_first_max (m_Evaluators : List Goal_Evaluator)
    (m_pOwner : BotRun) (h : m_Evaluators ≠ []) :
    ∃ i ev, m_Evaluators[i]? = some ev ∧
      Goal_Think.Arbitrate m_Evaluators m_pOwner = ([i], ev.SetGoal m_pOwner) ∧
      (∀ e ∈ m_Evaluators,
        e.CalculateDesirability m_pOwner.bot ≤ ev.CalculateDesirability m_pOwner.bot) ∧
      (∀ j e, j < i → m_Evaluators[j]? = some e →
        e.CalculateDesirability m_pOwner.bot < ev.CalculateDesirability m_pOwner.bot) ∧
      (∀ (again : List Goal_Evaluator) (owner2 : BotRun),
        again.map (fun e => e.CalculateDesirability owner2.bot) =
          m_Evaluators.map (fun e => e.CalculateDesirability m_pOwner.bot) →
        (Goal_Think.Arbitrate again owner2).1 = [i]) := by
  have hsc : m_Evaluators.map (fun e => e.CalculateDesirability m_pOwner.bot) ≠ [] := by
    simpa using h
  obtain ⟨i, v, hsel, hget, hmax, hfirst⟩ := mostDesirable_first_max _ hsc
  have hi : i < m_Evaluators.length := by
    have := (List.getElem?_eq_some_iff.1 hget).1
    simpa using this
  have hev : m_Evaluators[i]? = some m_Evaluators[i] := List.getElem?_eq_getElem hi
  have hv : (m_Evaluators[i]).CalculateDesirability m_pOwner.bot = v := by
    have := hget
    rw [List.getElem?_map, hev] at this
    simpa using this
  refine ⟨i, m_Evaluators[i], hev, ?_, ?_, ?_, ?_⟩
  · unfold Goal_Think.Arbitrate
    simp only [hsel, hev]
  · intro e he
    rw [hv]
    exact hmax _ (List.mem_map.2 ⟨e, he, rfl⟩)
  · intro j e hj hje
    rw [hv]
    refine hfirst j hj _ ?_
    rw [List.getElem?_map, hje]
    rfl
  · intro again owner2 hsame
    have hlen : again.length = m_Evaluators.length := by
      have := congrArg List.length hsame
      simpa using this
    rw [arbitrate_called, hsame, hsel]
    simp [hlen, hi]

/-- C8 at three evaluators scoring `1/20`, `1` and `1`: the list is not empty,
and `SetGoal` is called on the evaluator at position 1, the first of the two
tied at the maximum. -/
theorem arbitrate_selects_first_max_witness :
    sampleEvaluators ≠ [] ∧
      ∃ i ev, sampleEvaluators[i]? = some ev ∧
        Goal_Think.Arbitrate sampleEvaluators { bot := sampleBotOff, calls := [] } =
          ([i], ev.SetGoal { bot := sampleBotOff, calls := [] }) ∧
        (∀ e ∈ sampleEvaluators,
          e.CalculateDesirability sampleBotOff ≤ ev.CalculateDesirability sampleBotOff) ∧
        (∀ j e, j < i → sampleEvaluators[j]? = some e →
          e.CalculateDesirability sampleBotOff < ev.CalculateDesirability sampleBotOff) ∧
        (∀ (again : List Goal_Evaluator) (owner2 : BotRun),
          again.map (fun e => e.CalculateDesirability owner2.bot) =
            sampleEvaluators.map (fun e => e.CalculateDesirability sampleBotOff) →
          (Goal_Think.Arbitrate again owner2).1 = [i]) :=
  ⟨by simp [sampleEvaluators],
    arbitrate_selects_first_max sampleEvaluators { bot := sampleBotOff, calls := [] }
      (by simp [sampleEvaluators])⟩

/-- The sample arbitration evaluated: of the three scores, `1` twice after the
explore score, the
evaluator at position 1 is selected and its goal is the one installed. -/
lemma arbitrate_sample_value :
    (Goal_Think.Arbitrate sampleEvaluators { bot := sampleBotOff, calls := [] }).1 = [1] ∧
      (Goal_Think.Arbitrate sampleEvaluators { bot := sampleBotOff, calls := [] }).2.calls =
        [ThinkCall.AddGoal_AttackTarget] := by
  simp [Goal_Think.Arbitrate, Goal_Think.mostDesirable, Goal_Think.scan, sampleEvaluators,
    Goal_Evaluator.const, Goal_Think.invoke]
  norm_num
  rfl

end Raven
